import Mathlib

/-!
Verification of the loss_lens probe (src/src/main.rs).

The program has two roles sharing one UDP wire protocol:

* the client runs a sender loop (emitting `[kind=2][seq:4 BE][client_id:4 BE]`
  probes with `seq` counting up from 1, bumping a shared `client_sent` counter)
  and a receiver loop that feeds 9-byte kind-3 datagrams into a sliding-bitmap
  loss tracker (`time_slots`, `seq_offset`, `client_received`,
  `server_received`, `last_print`, plus a byte sink fed one popcount byte per
  retired slot);
* the server keeps a per-client-id receipt counter map (`rx_map`) and echoes
  each 9-byte datagram back with the counter in bytes 5..9.

The definitions below are a shallow embedding of that code: machine integers
become `Nat` with explicit `% 2 ^ 32` where the code can wrap, the `VecDeque`
becomes a `List` (front = head), and the zstd pipe becomes the list `out` of
bytes written.  Loops become recursive functions with the same guard and body.
-/

/-- `SLOT_SIZE` from the source: width of one bitmap slot. -/
def SLOT_SIZE : Nat := 64

/-- `PACKETS_PER_SECOND` from the source. -/
def PACKETS_PER_SECOND : Nat := 67

/-- `LATE_WINDOW = PACKETS_PER_SECOND * 3` from the source. -/
def LATE_WINDOW : Nat := PACKETS_PER_SECOND * 3

/-- `u64::count_ones`: the number of set bits of a natural number. -/
def popCount (n : Nat) : Nat :=
  if n = 0 then 0 else n % 2 + popCount (n / 2)
decreasing_by exact Nat.div_lt_self (Nat.pos_of_ne_zero (by assumption)) (by decide)

/-- The client receiver-loop accounting state (the `LossTracker` of the spec):
`time_slots` is the `VecDeque<u64>` of bitmap slots (front = head of the list),
`seq_offset` the lowest sequence number still representable, `client_received`
the distinct-accepted counter, `server_received` the high-water mark of the
server receipt index, `last_print` the report threshold, and `out` the bytes
written so far to the compression sink (one popcount byte per retired slot). -/
structure TrackerState where
  time_slots : List Nat
  seq_offset : Nat
  client_received : Nat
  server_received : Nat
  last_print : Nat
  out : List Nat
deriving Repr, DecidableEq

/-- The eviction loop of the source:
`while time_slots.len() * SLOT_SIZE > LATE_WINDOW { pop_front; write popcount;
seq_offset += SLOT_SIZE }`.  Returns the remaining slots, the extended output
byte list, and the advanced `seq_offset`. -/
def evictLoop : List Nat → List Nat → Nat → List Nat × List Nat × Nat
  | [], out, off => ([], out, off)
  | s :: rest, out, off =>
    if (s :: rest).length * SLOT_SIZE > LATE_WINDOW then
      evictLoop rest (out ++ [popCount s]) (off + SLOT_SIZE)
    else (s :: rest, out, off)

/-- The window-growth loop of the source:
`while received_seq >= time_slots.len() * SLOT_SIZE + seq_offset
 { time_slots.push_back(0) }`. -/
def growLoop (received_seq seq_offset : Nat) (slots : List Nat) : List Nat :=
  if received_seq ≥ slots.length * SLOT_SIZE + seq_offset then
    growLoop received_seq seq_offset (slots ++ [0])
  else slots
termination_by received_seq + 1 - (slots.length * SLOT_SIZE + seq_offset)
decreasing_by
  simp only [List.length_append, List.length_cons, List.length_nil, SLOT_SIZE] at *
  omega

/-- One pass of the client receiver loop body for a well-formed ack
(`n == SERVER_TO_CLIENT_PACKET_SIZE && buf[0] == ACK_PACKET_CONST`), given the
decoded `received_seq` (bytes 1..5) and `server_receipt` (bytes 5..9):
max-update `server_received`, run the eviction loop, late-drop if
`received_seq < seq_offset`, otherwise grow the window, count a first arrival,
mark the bit, and finally update the report threshold `last_print`. -/
def observe (st : TrackerState) (received_seq server_receipt : Nat) :
    TrackerState :=
  let server_received := max server_receipt st.server_received
  let ev := evictLoop st.time_slots st.out st.seq_offset
  let slots1 := ev.1
  let out1 := ev.2.1
  let off1 := ev.2.2
  let last_print :=
    if server_received - st.last_print > PACKETS_PER_SECOND ∧ 0 < server_received
    then server_received else st.last_print
  if received_seq ≥ off1 then
    let slots2 := growLoop received_seq off1 slots1
    let idx := received_seq - off1
    let w := slots2.getD (idx / SLOT_SIZE) 0
    let client_received :=
      if w &&& (1 <<< (idx % SLOT_SIZE)) = 0
      then st.client_received + 1 else st.client_received
    { time_slots := slots2.set (idx / SLOT_SIZE) (w ||| (1 <<< (idx % SLOT_SIZE)))
      seq_offset := off1
      client_received := client_received
      server_received := server_received
      last_print := last_print
      out := out1 }
  else
    { time_slots := slots1
      seq_offset := off1
      client_received := st.client_received
      server_received := server_received
      last_print := last_print
      out := out1 }

/-- The receiver-loop state at thread start: empty window, `seq_offset = 1`,
all counters zero, nothing written to the sink. -/
def initialState : TrackerState :=
  { time_slots := [], seq_offset := 1, client_received := 0
    server_received := 0, last_print := 0, out := [] }

/-- Folding a list of acks (pairs of decoded `received_seq` and
`server_receipt`) through `observe`: the whole run of the receiver loop. -/
def runObs (st : TrackerState) : List (Nat × Nat) → TrackerState
  | [] => st
  | (rs, sr) :: rest => runObs (observe st rs sr) rest

/-- The word a sequence-number index falls into, `getD` with default 0 (a
missing slot behaves like an all-zero slot for bit tests). -/
def wordAt (slots : List Nat) (i : Nat) : Nat := slots.getD i 0

/-- The bit of sequence number `seq` is set in the window `slots` based at
`off`: the test the mark-bit step of the source performs at
`idx = seq - off`. -/
def bitAt (slots : List Nat) (off seq : Nat) : Prop :=
  off ≤ seq ∧
    wordAt slots ((seq - off) / SLOT_SIZE) &&& (1 <<< ((seq - off) % SLOT_SIZE)) ≠ 0

instance (slots : List Nat) (off seq : Nat) : Decidable (bitAt slots off seq) := by
  unfold bitAt; infer_instance

/-- `bitAt` on a tracker state. -/
def bitSet (st : TrackerState) (seq : Nat) : Prop :=
  bitAt st.time_slots st.seq_offset seq

instance (st : TrackerState) (seq : Nat) : Decidable (bitSet st seq) := by
  unfold bitSet
  infer_instance

/-- Invariant tying the sink to the window: every slot is a valid `u64` word,
every byte written is a popcount (hence at most 64), and the offset has
advanced by exactly `SLOT_SIZE` for each byte written (one byte per retired
slot, starting from `seq_offset = 1`). -/
def SinkInvariant (st : TrackerState) : Prop :=
  (∀ w ∈ st.time_slots, w < 2 ^ 64) ∧
  (∀ b ∈ st.out, b ≤ 64) ∧
  st.seq_offset = 1 + SLOT_SIZE * st.out.length

/-! ### Wire format and the server (responder) side -/

/-- `SEQ_NUM_PACKET_CONST` from the source: the probe kind tag. -/
def SEQ_NUM_PACKET_CONST : Nat := 2

/-- `ACK_PACKET_CONST` from the source: the echo kind tag. -/
def ACK_PACKET_CONST : Nat := 3

/-- `CLIENT_TO_SERVER_PACKET_SIZE = 1 + 4 + 4` from the source. -/
def CLIENT_TO_SERVER_PACKET_SIZE : Nat := 9

/-- `SERVER_TO_CLIENT_PACKET_SIZE = 1 + 4 + 4` from the source. -/
def SERVER_TO_CLIENT_PACKET_SIZE : Nat := 9

/-- `u32::from_be_bytes` on a 4-byte big-endian slice (bytes < 256). -/
def be32of (l : List Nat) : Nat :=
  l.foldl (fun a b => a * 256 + b) 0

/-- `u32::to_be_bytes`. -/
def be32enc (n : Nat) : List Nat :=
  [n / 2 ^ 24 % 256, n / 2 ^ 16 % 256, n / 2 ^ 8 % 256, n % 256]

/-- The server's `rx_map` (`HashMap<u32, (u32, Instant)>`) as an association
list of entries `(client_id, receivedCount, lastSeen)`; `HashMap::new()` is
`[]`.  Timestamps are abstract non-negative seconds. -/
abbrev EchoTable := List (Nat × Nat × Nat)

/-- `rx_map.entry(client_id).or_insert_with(|| (0, now)); e.0 += 1; e.1 = now`
(source lines 243–248): create the entry with count 0 on first sight, then
increment the count (`u32` wrap-around) and refresh the timestamp; returns the
updated table and the count echoed back in the reply.  The idle-eviction
sweep of lines 239–242 is the separate `retain` modeled in `serverStep`. -/
def record (t : EchoTable) (c now : Nat) : EchoTable × Nat :=
  match t.find? (fun e => e.1 == c) with
  | some e =>
    (t.map (fun e2 => if e2.1 == c then (c, (e.2.1 + 1) % 2 ^ 32, now) else e2),
      (e.2.1 + 1) % 2 ^ 32)
  | none => (t ++ [(c, 1, now)], 1)

/-- The count stored for a client id (0 when absent). -/
def lookupCount (t : EchoTable) (c : Nat) : Nat :=
  match t.find? (fun e => e.1 == c) with
  | some e => e.2.1
  | none => 0

/-- The replies produced by the server's `record` operation over an inbound
probe stream of `(client_id, arrival_time)` pairs. -/
def serverRun (t : EchoTable) : List (Nat × Nat) → List Nat
  | [] => []
  | (c, now) :: ps => (record t c now).2 :: serverRun (record t c now).1 ps

/-- One iteration of the server receive loop (source lines 236–252): a
datagram is processed iff its length is `CLIENT_TO_SERVER_PACKET_SIZE` (the
`kind` byte is never inspected); first the idle-eviction sweep (`retain`
entries younger than 10 s, only when the table has more than 1000 entries and
more than a second elapsed since the last check), then the `record` update
keyed on bytes 5..9, then the echo reply: `buf[0] = ACK_PACKET_CONST`, bytes
1..5 unchanged, bytes 5..9 the count.  Returns the new table, the new
`last_check`, and the optional reply. -/
def serverStep (t : EchoTable) (last_check now : Nat) (buf : List Nat) :
    EchoTable × Nat × Option (List Nat) :=
  if buf.length = CLIENT_TO_SERVER_PACKET_SIZE then
    let p :=
      if t.length > 1000 ∧ now - last_check > 1
      then (t.filter (fun e => now - e.2.2 < 10), now)
      else (t, last_check)
    let client_id := be32of ((buf.drop 5).take 4)
    let r := record p.1 client_id now
    (r.1, p.2, some ([ACK_PACKET_CONST] ++ (buf.drop 1).take 4 ++ be32enc r.2))
  else (t, last_check, none)

/-! ### The client receive loop around the tracker -/

/-- The client receiver-loop state beyond the tracker: `last_recv` and the
`lags` histogram (10 buckets, 100 ms wide), updated for every received
datagram before the ack filter. -/
structure ClientState where
  tr : TrackerState
  last_recv : Option Nat
  lags : List Nat
deriving Repr, DecidableEq

/-- One iteration of the client receiver loop (source lines 114–198) on a
received datagram `buf` arriving at time `now` (milliseconds): the
inter-arrival lag histogram and `last_recv` are updated for EVERY datagram;
then only a `SERVER_TO_CLIENT_PACKET_SIZE`-byte datagram whose first byte is
`ACK_PACKET_CONST` reaches the tracker (`observe` on the decoded sequence
number and receipt index). -/
def clientStep (cs : ClientState) (now : Nat) (buf : List Nat) : ClientState :=
  let lags :=
    match cs.last_recv with
    | some last =>
      let dur := (now - last) / 100
      if dur ≥ 1 then
        if dur < cs.lags.length then cs.lags.set dur (cs.lags.getD dur 0 + 1)
        else cs.lags.set (cs.lags.length - 1) (cs.lags.getD (cs.lags.length - 1) 0 + 1)
      else cs.lags
    | none => cs.lags
  let last_recv := some now
  if buf.length = SERVER_TO_CLIENT_PACKET_SIZE ∧ buf.getD 0 0 = ACK_PACKET_CONST then
    { tr := observe cs.tr (be32of ((buf.drop 1).take 4)) (be32of ((buf.drop 5).take 4))
      last_recv := last_recv
      lags := lags }
  else
    { tr := cs.tr, last_recv := last_recv, lags := lags }

/-! ### The sender loop -/

/-- The probe datagram built by the sender loop (source lines 212–215):
`buf[0] = SEQ_NUM_PACKET_CONST`, bytes 1..5 the sequence number big-endian,
bytes 5..9 the client id big-endian. -/
def probeBuf (seq client_id : Nat) : List Nat :=
  [SEQ_NUM_PACKET_CONST] ++ be32enc seq ++ be32enc client_id

/-- The datagrams sent by `n` iterations of the sender loop
(`for seq in 1u32..`) starting at sequence number `seq`. -/
def senderLoop (client_id seq : Nat) : Nat → List (List Nat)
  | 0 => []
  | n + 1 => probeBuf seq client_id :: senderLoop client_id (seq + 1) n

/-- The datagrams sent by the first `n` iterations of the sender loop, which
starts at sequence number 1. -/
def senderRun (client_id n : Nat) : List (List Nat) :=
  senderLoop client_id 1 n

/-- The shared `client_sent` counter (`AtomicU32`, starting at 0) after `n`
`fetch_add(1)` operations (wrapping `u32` addition). -/
def sentCounter : Nat → Nat
  | 0 => 0
  | n + 1 => (sentCounter n + 1) % 2 ^ 32

/-! ### Basic facts about the constants -/

theorem SLOT_SIZE_eq : SLOT_SIZE = 64 := rfl

theorem LATE_WINDOW_eq : LATE_WINDOW = 201 := rfl

/-! ### The eviction loop -/

/-- Full characterization of the eviction loop: it pops some minimal prefix of
`k` slots, appends their popcounts (in order) to the output, and advances the
offset by `SLOT_SIZE` for each popped slot. -/
theorem evictLoop_spec (slots out : List Nat) (off : Nat) :
    ∃ k, k ≤ slots.length ∧
      evictLoop slots out off =
        (slots.drop k, out ++ (slots.take k).map popCount, off + SLOT_SIZE * k) ∧
      (slots.length - k) * SLOT_SIZE ≤ LATE_WINDOW ∧
      (∀ j, j < k → (slots.length - j) * SLOT_SIZE > LATE_WINDOW) := by
  induction slots generalizing out off with
  | nil =>
    refine ⟨0, by simp, ?_, by simp [LATE_WINDOW_eq], by simp⟩
    simp [evictLoop]
  | cons s rest ih =>
    by_cases h : (s :: rest).length * SLOT_SIZE > LATE_WINDOW
    · obtain ⟨k, hk, heq, hle, hmin⟩ := ih (out ++ [popCount s]) (off + SLOT_SIZE)
      refine ⟨k + 1, by simp; omega, ?_, ?_, ?_⟩
      · rw [evictLoop, if_pos h, heq]
        simp [List.append_assoc, SLOT_SIZE_eq]
        omega
      · simpa using hle
      · intro j hj
        match j with
        | 0 => simpa using h
        | j + 1 => simpa using hmin j (by omega)
    · refine ⟨0, by simp, ?_, by simp only [Nat.sub_zero]; omega, by simp⟩
      rw [evictLoop, if_neg h]
      simp

/-- After eviction the window covers at most `LATE_WINDOW` sequence numbers,
i.e. at most 3 slots remain (`3 * 64 = 192 ≤ 201 < 4 * 64`). -/
theorem evictLoop_len_le (slots out : List Nat) (off : Nat) :
    ((evictLoop slots out off).1).length ≤ 3 := by
  obtain ⟨k, hk, heq, hle, -⟩ := evictLoop_spec slots out off
  rw [heq]
  simp only [List.length_drop]
  simp only [SLOT_SIZE_eq, LATE_WINDOW_eq] at hle
  omega

/-- Eviction never moves the offset backwards. -/
theorem evictLoop_off_le (slots out : List Nat) (off : Nat) :
    off ≤ (evictLoop slots out off).2.2 := by
  obtain ⟨k, -, heq, -, -⟩ := evictLoop_spec slots out off
  rw [heq]
  exact Nat.le_add_right _ _

/-- Eviction only appends to the output byte list. -/
theorem evictLoop_out_append (slots out : List Nat) (off : Nat) :
    ∃ t, (evictLoop slots out off).2.1 = out ++ t := by
  obtain ⟨k, -, heq, -, -⟩ := evictLoop_spec slots out off
  exact ⟨_, by rw [heq]⟩

/-- Each eviction writes exactly one byte per `SLOT_SIZE` of offset advance:
the final offset and output length satisfy the same linear relation as the
initial ones. -/
theorem evictLoop_off_out (slots out : List Nat) (off : Nat) :
    (evictLoop slots out off).2.2 + SLOT_SIZE * out.length =
      off + SLOT_SIZE * ((evictLoop slots out off).2.1).length := by
  obtain ⟨k, hk, heq, -, -⟩ := evictLoop_spec slots out off
  rw [heq]
  simp [List.length_take, Nat.min_eq_left hk, Nat.mul_add]
  ring

/-- Every byte of the eviction output is an old byte or the popcount of one of
the evicted slots. -/
theorem evictLoop_out_mem (slots out : List Nat) (off : Nat) :
    ∀ b ∈ (evictLoop slots out off).2.1,
      b ∈ out ∨ ∃ s, s ∈ slots ∧ b = popCount s := by
  obtain ⟨k, -, heq, -, -⟩ := evictLoop_spec slots out off
  rw [heq]
  intro b hb
  rcases List.mem_append.1 hb with h | h
  · exact Or.inl h
  · obtain ⟨s, hs, hsb⟩ := List.mem_map.1 h
    exact Or.inr ⟨s, List.mem_of_mem_take hs, hsb.symm⟩

/-- The slots surviving eviction are among the original slots. -/
theorem evictLoop_slots_mem (slots out : List Nat) (off : Nat) :
    ∀ w ∈ (evictLoop slots out off).1, w ∈ slots := by
  obtain ⟨k, -, heq, -, -⟩ := evictLoop_spec slots out off
  rw [heq]
  intro w hw
  exact List.mem_of_mem_drop hw

/-! ### The growth loop -/

/-- Exit condition of the growth loop: afterwards the window covers
`received_seq`. -/
theorem growLoop_covers (rs off : Nat) (slots : List Nat) :
    rs < (growLoop rs off slots).length * SLOT_SIZE + off := by
  induction slots using growLoop.induct rs off with
  | case1 slots h ih =>
    rw [growLoop, if_pos h]
    exact ih
  | case2 slots h =>
    rw [growLoop, if_neg h]
    omega

/-- The growth loop only appends zero slots at the back. -/
theorem growLoop_append (rs off : Nat) (slots : List Nat) :
    ∃ m, growLoop rs off slots = slots ++ List.replicate m 0 := by
  induction slots using growLoop.induct rs off with
  | case1 slots h ih =>
    obtain ⟨m, hm⟩ := ih
    rw [growLoop, if_pos h, hm]
    exact ⟨m + 1, by simp [List.replicate_succ]⟩
  | case2 slots h =>
    rw [growLoop, if_neg h]
    exact ⟨0, by simp⟩

/-- The growth loop never makes the window longer than needed to cover
`received_seq`. -/
theorem growLoop_len_le (rs off : Nat) (slots : List Nat) :
    (growLoop rs off slots).length ≤
      max slots.length ((rs - off) / SLOT_SIZE + 1) := by
  induction slots using growLoop.induct rs off with
  | case1 slots h ih =>
    rw [growLoop, if_pos h]
    refine le_trans ih (max_le ?_ (le_max_right _ _))
    refine le_trans ?_ (le_max_right _ _)
    simp only [List.length_append, List.length_cons, List.length_nil]
    have h64 : 0 < SLOT_SIZE := by simp [SLOT_SIZE_eq]
    have : slots.length ≤ (rs - off) / SLOT_SIZE := by
      rw [Nat.le_div_iff_mul_le h64]
      omega
    omega
  | case2 slots h =>
    rw [growLoop, if_neg h]
    exact le_max_left _ _

/-! ### Bit-level helper lemmas -/

/-- Reading any index of an all-zero list yields 0 (also past the end). -/
theorem getD_replicate_zero (m i : Nat) :
    (List.replicate m 0).getD i 0 = 0 := by
  induction m generalizing i with
  | zero => simp
  | succ m ih =>
    cases i with
    | zero => simp [List.replicate_succ]
    | succ i => simp [List.replicate_succ, ih]

/-- Padding a list with zero slots changes no `getD`-with-default-0 read. -/
theorem getD_append_replicate_zero (l : List Nat) (m i : Nat) :
    (l ++ List.replicate m 0).getD i 0 = l.getD i 0 := by
  induction l generalizing i with
  | nil => simp [getD_replicate_zero]
  | cons x xs ih =>
    cases i with
    | zero => simp
    | succ i =>
      simp only [List.cons_append, List.getD_cons_succ]
      exact ih i

/-- Window growth (appending zero slots) changes no bit. -/
theorem bitAt_append_zeros (slots : List Nat) (m off seq : Nat) :
    bitAt (slots ++ List.replicate m 0) off seq ↔ bitAt slots off seq := by
  unfold bitAt wordAt
  rw [getD_append_replicate_zero]

/-- The bit of `seq` relative to base `off + SLOT_SIZE` in the tail equals its
bit relative to base `off` in the whole window (index shift by one slot). -/
theorem bitAt_cons (s : Nat) (rest : List Nat) (off seq : Nat)
    (h : off + SLOT_SIZE ≤ seq) :
    bitAt rest (off + SLOT_SIZE) seq ↔ bitAt (s :: rest) off seq := by
  unfold bitAt wordAt
  have h1 : seq - off = seq - (off + SLOT_SIZE) + SLOT_SIZE := by omega
  rw [h1, Nat.add_div_right _ (by simp [SLOT_SIZE_eq]), Nat.add_mod_right]
  simp only [List.getD_cons_succ]
  constructor
  · rintro ⟨-, h2⟩
    exact ⟨by omega, h2⟩
  · rintro ⟨-, h2⟩
    exact ⟨by omega, h2⟩

/-- Eviction preserves the bit of every sequence number that is still at or
above the post-eviction offset. -/
theorem evictLoop_bitAt (slots out : List Nat) (off seq : Nat)
    (h : (evictLoop slots out off).2.2 ≤ seq) :
    bitAt (evictLoop slots out off).1 (evictLoop slots out off).2.2 seq ↔
      bitAt slots off seq := by
  induction slots generalizing out off with
  | nil => simp [evictLoop]
  | cons s rest ih =>
    by_cases hcond : (s :: rest).length * SLOT_SIZE > LATE_WINDOW
    · rw [evictLoop, if_pos hcond] at h ⊢
      have hoff : off + SLOT_SIZE ≤ seq :=
        le_trans (evictLoop_off_le rest (out ++ [popCount s]) (off + SLOT_SIZE)) h
      exact (ih (out ++ [popCount s]) (off + SLOT_SIZE) h).trans
        (bitAt_cons s rest off seq hoff)
    · rw [evictLoop, if_neg hcond]

/-- Growth preserves every bit. -/
theorem growLoop_bitAt (rs off : Nat) (slots : List Nat) (off2 seq : Nat) :
    bitAt (growLoop rs off slots) off2 seq ↔ bitAt slots off2 seq := by
  obtain ⟨m, hm⟩ := growLoop_append rs off slots
  rw [hm, bitAt_append_zeros]

/-- The popcount of a number below `2 ^ k` is at most `k`. -/
theorem popCount_le_of_lt (k n : Nat) (h : n < 2 ^ k) : popCount n ≤ k := by
  induction k generalizing n with
  | zero =>
    have h0 : n = 0 := by omega
    subst h0
    rw [popCount]
    simp
  | succ k ih =>
    by_cases h0 : n = 0
    · subst h0
      rw [popCount]
      simp
    · rw [popCount, if_neg h0]
      have hp : 2 ^ (k + 1) = 2 ^ k * 2 := Nat.pow_succ ..
      have hdiv : n / 2 < 2 ^ k := by omega
      have h2 := ih _ hdiv
      omega

/-! ### Branch equations for `observe` -/

/-- `observe` on a late echo (`received_seq` below the post-eviction offset):
only the echo-independent housekeeping (eviction, `server_received` max-update,
report threshold) happens. -/
theorem observe_def_late (st : TrackerState) (rs sr : Nat)
    (h : rs < (evictLoop st.time_slots st.out st.seq_offset).2.2) :
    observe st rs sr =
      { time_slots := (evictLoop st.time_slots st.out st.seq_offset).1
        seq_offset := (evictLoop st.time_slots st.out st.seq_offset).2.2
        client_received := st.client_received
        server_received := max sr st.server_received
        last_print :=
          if max sr st.server_received - st.last_print > PACKETS_PER_SECOND ∧
              0 < max sr st.server_received
          then max sr st.server_received else st.last_print
        out := (evictLoop st.time_slots st.out st.seq_offset).2.1 } := by
  simp only [observe]
  rw [if_neg (by omega)]

/-- `observe` on an in-window echo: eviction, growth, first-arrival counting
and bit-marking, exactly as in the source. -/
theorem observe_def_mark (st : TrackerState) (rs sr : Nat)
    (h : rs ≥ (evictLoop st.time_slots st.out st.seq_offset).2.2) :
    observe st rs sr =
      { time_slots :=
          (growLoop rs (evictLoop st.time_slots st.out st.seq_offset).2.2
              (evictLoop st.time_slots st.out st.seq_offset).1).set
            ((rs - (evictLoop st.time_slots st.out st.seq_offset).2.2) / SLOT_SIZE)
            ((growLoop rs (evictLoop st.time_slots st.out st.seq_offset).2.2
                (evictLoop st.time_slots st.out st.seq_offset).1).getD
              ((rs - (evictLoop st.time_slots st.out st.seq_offset).2.2) / SLOT_SIZE) 0 |||
              1 <<< ((rs - (evictLoop st.time_slots st.out st.seq_offset).2.2) % SLOT_SIZE))
        seq_offset := (evictLoop st.time_slots st.out st.seq_offset).2.2
        client_received :=
          if (growLoop rs (evictLoop st.time_slots st.out st.seq_offset).2.2
                (evictLoop st.time_slots st.out st.seq_offset).1).getD
              ((rs - (evictLoop st.time_slots st.out st.seq_offset).2.2) / SLOT_SIZE) 0 &&&
              1 <<< ((rs - (evictLoop st.time_slots st.out st.seq_offset).2.2) % SLOT_SIZE) = 0
          then st.client_received + 1 else st.client_received
        server_received := max sr st.server_received
        last_print :=
          if max sr st.server_received - st.last_print > PACKETS_PER_SECOND ∧
              0 < max sr st.server_received
          then max sr st.server_received else st.last_print
        out := (evictLoop st.time_slots st.out st.seq_offset).2.1 } := by
  simp only [observe]
  rw [if_pos h]

/-! ### Observe-level lemmas -/

/-- The offset after `observe` is the post-eviction offset, in both branches. -/
theorem observe_seq_offset (st : TrackerState) (rs sr : Nat) :
    (observe st rs sr).seq_offset =
      (evictLoop st.time_slots st.out st.seq_offset).2.2 := by
  by_cases h : rs ≥ (evictLoop st.time_slots st.out st.seq_offset).2.2
  · rw [observe_def_mark st rs sr h]
  · rw [observe_def_late st rs sr (by omega)]

/-- The sink bytes after `observe` are the post-eviction bytes, in both
branches. -/
theorem observe_out (st : TrackerState) (rs sr : Nat) :
    (observe st rs sr).out =
      (evictLoop st.time_slots st.out st.seq_offset).2.1 := by
  by_cases h : rs ≥ (evictLoop st.time_slots st.out st.seq_offset).2.2
  · rw [observe_def_mark st rs sr h]
  · rw [observe_def_late st rs sr (by omega)]

/-- `observe` never moves `seq_offset` backwards. -/
theorem observe_seq_offset_le (st : TrackerState) (rs sr : Nat) :
    st.seq_offset ≤ (observe st rs sr).seq_offset := by
  rw [observe_seq_offset]
  exact evictLoop_off_le _ _ _

/-- A late echo does not change the distinct-accepted counter. -/
theorem observe_client_received_late (st : TrackerState) (rs sr : Nat)
    (h : rs < (evictLoop st.time_slots st.out st.seq_offset).2.2) :
    (observe st rs sr).client_received = st.client_received := by
  rw [observe_def_late st rs sr h]

/-- After an in-window `observe`, the bit of the observed sequence number is
set. -/
theorem observe_bitSet_after (st : TrackerState) (rs sr : Nat)
    (h : rs ≥ (evictLoop st.time_slots st.out st.seq_offset).2.2) :
    bitSet (observe st rs sr) rs := by
  rw [observe_def_mark st rs sr h]
  unfold bitSet bitAt wordAt
  refine ⟨h, ?_⟩
  have hcov := growLoop_covers rs (evictLoop st.time_slots st.out st.seq_offset).2.2
    (evictLoop st.time_slots st.out st.seq_offset).1
  have hS : 0 < SLOT_SIZE := by simp [SLOT_SIZE_eq]
  have hidx : (rs - (evictLoop st.time_slots st.out st.seq_offset).2.2) / SLOT_SIZE <
      (growLoop rs (evictLoop st.time_slots st.out st.seq_offset).2.2
        (evictLoop st.time_slots st.out st.seq_offset).1).length := by
    rw [Nat.div_lt_iff_lt_mul hS]
    omega
  rw [List.getD_eq_getElem?_getD, List.getElem?_set_self hidx]
  simp only [Option.getD_some]
  rw [Nat.one_shiftLeft, Nat.and_two_pow]
  simp [Nat.testBit_or, Nat.testBit_two_pow_self]

/-- If the bit of `rs` is already set after eviction and growth, the mark step
does not increment the distinct-accepted counter. -/
theorem observe_client_received_of_marked (st : TrackerState) (rs sr : Nat)
    (h : rs ≥ (evictLoop st.time_slots st.out st.seq_offset).2.2)
    (hbit : bitAt (growLoop rs (evictLoop st.time_slots st.out st.seq_offset).2.2
        (evictLoop st.time_slots st.out st.seq_offset).1)
      (evictLoop st.time_slots st.out st.seq_offset).2.2 rs) :
    (observe st rs sr).client_received = st.client_received := by
  rw [observe_def_mark st rs sr h]
  obtain ⟨-, hb⟩ := hbit
  unfold wordAt at hb
  simp only [if_neg hb]

/-- Main idempotence engine: if the bit of `rs` is already set in the current
window, observing `rs` again leaves the distinct-accepted counter unchanged. -/
theorem observe_client_received_of_bitSet (st : TrackerState) (rs sr : Nat)
    (hbit : bitSet st rs) :
    (observe st rs sr).client_received = st.client_received := by
  by_cases h : rs ≥ (evictLoop st.time_slots st.out st.seq_offset).2.2
  · refine observe_client_received_of_marked st rs sr h ?_
    rw [growLoop_bitAt]
    exact (evictLoop_bitAt st.time_slots st.out st.seq_offset rs h).2 hbit
  · exact observe_client_received_late st rs sr (by omega)

/-! ### The sink invariant (one popcount byte per retired slot) -/

/-- A `getD`-with-default-0 read is either a member of the list or 0. -/
theorem getD_mem_or_zero (l : List Nat) (i : Nat) :
    l.getD i 0 ∈ l ∨ l.getD i 0 = 0 := by
  induction l generalizing i with
  | nil => simp
  | cons x xs ih =>
    cases i with
    | zero => simp
    | succ i =>
      simp only [List.getD_cons_succ]
      rcases ih i with h | h
      · exact Or.inl (List.mem_cons_of_mem x h)
      · exact Or.inr h

/-- `observe` preserves the sink invariant. -/
theorem sinkInvariant_observe (st : TrackerState) (rs sr : Nat)
    (h : SinkInvariant st) : SinkInvariant (observe st rs sr) := by
  obtain ⟨hw, hb, hoff⟩ := h
  have hw1 : ∀ w ∈ (evictLoop st.time_slots st.out st.seq_offset).1, w < 2 ^ 64 :=
    fun w hmem => hw w (evictLoop_slots_mem _ _ _ w hmem)
  have hb1 : ∀ b ∈ (evictLoop st.time_slots st.out st.seq_offset).2.1, b ≤ 64 := by
    intro b hmem
    rcases evictLoop_out_mem st.time_slots st.out st.seq_offset b hmem with hold | ⟨s, hs, hbs⟩
    · exact hb b hold
    · exact hbs ▸ popCount_le_of_lt 64 s (hw s hs)
  have hoff1 : (evictLoop st.time_slots st.out st.seq_offset).2.2 =
      1 + SLOT_SIZE * ((evictLoop st.time_slots st.out st.seq_offset).2.1).length := by
    have h2 := evictLoop_off_out st.time_slots st.out st.seq_offset
    simp only [SLOT_SIZE_eq] at h2 hoff ⊢
    omega
  have hw2 : ∀ w ∈ growLoop rs (evictLoop st.time_slots st.out st.seq_offset).2.2
      (evictLoop st.time_slots st.out st.seq_offset).1, w < 2 ^ 64 := by
    obtain ⟨m, hm⟩ := growLoop_append rs (evictLoop st.time_slots st.out st.seq_offset).2.2
      (evictLoop st.time_slots st.out st.seq_offset).1
    rw [hm]
    intro w hmem
    rcases List.mem_append.1 hmem with hmem | hmem
    · exact hw1 w hmem
    · rw [List.eq_of_mem_replicate hmem]
      exact Nat.pos_pow_of_pos _ (by decide)
  by_cases hcase : rs ≥ (evictLoop st.time_slots st.out st.seq_offset).2.2
  · rw [observe_def_mark st rs sr hcase]
    refine ⟨?_, hb1, hoff1⟩
    intro w hmem
    rcases List.mem_or_eq_of_mem_set hmem with hmem | rfl
    · exact hw2 w hmem
    · refine Nat.or_lt_two_pow ?_ ?_
      · rcases getD_mem_or_zero (growLoop rs (evictLoop st.time_slots st.out st.seq_offset).2.2
          (evictLoop st.time_slots st.out st.seq_offset).1)
          ((rs - (evictLoop st.time_slots st.out st.seq_offset).2.2) / SLOT_SIZE) with hmem2 | hz
        · exact hw2 _ hmem2
        · rw [hz]
          exact Nat.pos_pow_of_pos _ (by decide)
      · rw [Nat.one_shiftLeft]
        exact Nat.pow_lt_pow_right (by decide)
          (Nat.mod_lt _ (by simp [SLOT_SIZE_eq]))
  · rw [observe_def_late st rs sr (by omega)]
    exact ⟨hw1, hb1, hoff1⟩

/-- The sink invariant holds at the start of the receiver loop. -/
theorem sinkInvariant_initial : SinkInvariant initialState := by
  refine ⟨?_, ?_, ?_⟩ <;> simp [initialState, SinkInvariant, SLOT_SIZE_eq]

/-- The sink invariant holds throughout every run of the receiver loop. -/
theorem sinkInvariant_runObs (obs : List (Nat × Nat)) :
    ∀ st : TrackerState, SinkInvariant st → SinkInvariant (runObs st obs) := by
  induction obs with
  | nil => exact fun st h => h
  | cons p rest ih =>
    intro st h
    exact ih (observe st p.1 p.2) (sinkInvariant_observe st p.1 p.2 h)

/-- Unfolding `runObs` on a cons cell. -/
theorem runObs_cons (st : TrackerState) (p : Nat × Nat)
    (rest : List (Nat × Nat)) :
    runObs st (p :: rest) = runObs (observe st p.1 p.2) rest := by
  cases p
  rfl

/-- Window-size bound for a single `observe` whose echo is within five slots
of the current window base. -/
theorem observe_len_le (st : TrackerState) (rs sr : Nat)
    (h : rs < st.seq_offset + 5 * SLOT_SIZE) :
    (observe st rs sr).time_slots.length ≤ 5 := by
  have hoffle := evictLoop_off_le st.time_slots st.out st.seq_offset
  have hev := evictLoop_len_le st.time_slots st.out st.seq_offset
  by_cases hcase : rs ≥ (evictLoop st.time_slots st.out st.seq_offset).2.2
  · rw [observe_def_mark st rs sr hcase]
    simp only [List.length_set]
    have hlen := growLoop_len_le rs (evictLoop st.time_slots st.out st.seq_offset).2.2
      (evictLoop st.time_slots st.out st.seq_offset).1
    simp only [SLOT_SIZE_eq] at hlen h
    omega
  · rw [observe_def_late st rs sr (by omega)]
    dsimp only
    omega
/-! ### Claim theorems -/

/-- C1, counterexample to the claim as stated: the slot count is NOT bounded
by `ceil(LATE_WINDOW / SLOT_WIDTH) + 1 = 5` at every point.  A single echo
whose sequence number is far ahead of the window base grows the window to
cover it within the same `observe` call: observing sequence number 321 on a
fresh tracker leaves 6 slots (eviction only trims the window back at the
start of the NEXT `observe`). -/
theorem C1_counterexample :
    (observe initialState 321 0).time_slots.length = 6 := by
  simp [observe, evictLoop, growLoop, initialState, SLOT_SIZE, LATE_WINDOW,
    PACKETS_PER_SECOND]

/-- C1 (amended): for any tracker state, an `observe` whose echoed sequence
number is within `(ceil(LATE_WINDOW / SLOT_WIDTH) + 1) * SLOT_WIDTH = 320`
of the current `seq_offset` leaves at most
`ceil(LATE_WINDOW / SLOT_WIDTH) + 1 = 5` slots; hence along any run in which
every echo satisfies this bound at its call, the slot count never exceeds 5.
Without the bound a single far-ahead echo exceeds it (see the
counterexample). -/
theorem C1_window_slot_bound (st : TrackerState) (rs sr : Nat)
    (h : rs < st.seq_offset + 5 * SLOT_SIZE) :
    (observe st rs sr).time_slots.length ≤ 5 :=
  observe_len_le st rs sr h

theorem C1_window_slot_bound_witness :
    2 < initialState.seq_offset + 5 * SLOT_SIZE ∧
      (observe initialState 2 0).time_slots.length ≤ 5 :=
  ⟨by decide, C1_window_slot_bound initialState 2 0 (by decide)⟩

/-- C2: duplicate echoes are idempotent for the distinct-accepted counter
`client_received`: (1) if the bit of `rs` is already set in the window,
observing `rs` leaves `client_received` unchanged; (2) consequently a second
observe of the same sequence number (with any receipt index) never increments
it — each sequence number is counted at most once. -/
theorem C2_duplicate_idempotent :
    (∀ st : TrackerState, ∀ rs sr : Nat, bitSet st rs →
        (observe st rs sr).client_received = st.client_received) ∧
    (∀ st : TrackerState, ∀ rs sr sr2 : Nat,
        (observe (observe st rs sr) rs sr2).client_received =
          (observe st rs sr).client_received) := by
  refine ⟨observe_client_received_of_bitSet, ?_⟩
  intro st rs sr sr2
  by_cases h : rs ≥ (evictLoop st.time_slots st.out st.seq_offset).2.2
  · exact observe_client_received_of_bitSet _ rs sr2 (observe_bitSet_after st rs sr h)
  · have h1 : rs < (observe st rs sr).seq_offset := by
      rw [observe_seq_offset]
      omega
    have h2 : rs < (evictLoop (observe st rs sr).time_slots (observe st rs sr).out
        (observe st rs sr).seq_offset).2.2 :=
      lt_of_lt_of_le h1 (evictLoop_off_le _ _ _)
    exact observe_client_received_late _ rs sr2 h2

theorem C2_duplicate_idempotent_witness :
    bitSet (observe initialState 1 0) 1 ∧
      (observe (observe initialState 1 0) 1 0).client_received =
        (observe initialState 1 0).client_received := by
  have heval : observe initialState 1 0 =
      { time_slots := [1], seq_offset := 1, client_received := 1
        server_received := 0, last_print := 0, out := [] } := by
    simp [observe, evictLoop, growLoop, initialState, SLOT_SIZE, LATE_WINDOW,
      PACKETS_PER_SECOND]
  have hbit : bitSet (observe initialState 1 0) 1 := by
    rw [heval]
    decide
  exact ⟨hbit, C2_duplicate_idempotent.1 _ 1 0 hbit⟩

/-- C3: an echo whose sequence number is strictly below the current
`seq_offset` is silently ignored: the distinct-accepted counter is unchanged,
no window bit becomes set that was not already set, and the resulting state
does not depend on which late sequence number was observed (the eviction
housekeeping at the start of `observe` runs identically for every echo). -/
theorem C3_late_echo_ignored (st : TrackerState) (rs sr : Nat)
    (h : rs < st.seq_offset) :
    (observe st rs sr).client_received = st.client_received ∧
    (∀ seq, bitSet (observe st rs sr) seq → bitSet st seq) ∧
    (∀ rs2, rs2 < st.seq_offset → observe st rs2 sr = observe st rs sr) := by
  have hoff := evictLoop_off_le st.time_slots st.out st.seq_offset
  have hlt : rs < (evictLoop st.time_slots st.out st.seq_offset).2.2 := by omega
  refine ⟨observe_client_received_late st rs sr hlt, ?_, ?_⟩
  · intro seq hbs
    rw [observe_def_late st rs sr hlt] at hbs
    unfold bitSet at hbs ⊢
    dsimp only at hbs
    exact (evictLoop_bitAt st.time_slots st.out st.seq_offset seq hbs.1).1 hbs
  · intro rs2 h2
    rw [observe_def_late st rs sr hlt, observe_def_late st rs2 sr (by omega)]

theorem C3_late_echo_ignored_witness :
    0 < initialState.seq_offset ∧
      (observe initialState 0 5).client_received = initialState.client_received :=
  ⟨by decide, (C3_late_echo_ignored initialState 0 5 (by decide)).1⟩

/-- C4: the eviction loop pops exactly the minimal number `k` of front slots
needed to bring `window.len() * SLOT_WIDTH` at or below `LATE_WINDOW`; for
each popped slot, in order, it appends the slot's popcount to the sink (the
`receivedCount` of the spec is the sum of these bytes) and advances
`seq_offset` by `SLOT_WIDTH` (the `SLOT_WIDTH`-step semantics matching
`idx = sequence - seqOffset` in the mark step of `observe`). -/
theorem C4_eviction_steps (slots out : List Nat) (off : Nat) :
    ∃ k, k ≤ slots.length ∧
      evictLoop slots out off =
        (slots.drop k, out ++ (slots.take k).map popCount, off + SLOT_SIZE * k) ∧
      ((evictLoop slots out off).2.1).sum =
        out.sum + ((slots.take k).map popCount).sum ∧
      (slots.length - k) * SLOT_SIZE ≤ LATE_WINDOW ∧
      (∀ j, j < k → (slots.length - j) * SLOT_SIZE > LATE_WINDOW) := by
  obtain ⟨k, hk, heq, hle, hmin⟩ := evictLoop_spec slots out off
  refine ⟨k, hk, heq, ?_, hle, hmin⟩
  rw [heq]
  simp

/-- C5: `seq_offset` is non-decreasing across every sequence of `observe`
calls. -/
theorem C5_seq_offset_monotone (st : TrackerState) (obs : List (Nat × Nat)) :
    st.seq_offset ≤ (runObs st obs).seq_offset := by
  induction obs generalizing st with
  | nil => exact le_refl _
  | cons p rest ih =>
    rw [runObs_cons]
    exact le_trans (observe_seq_offset_le st p.1 p.2) (ih (observe st p.1 p.2))

/-- C6: the persisted byte stream is one byte per retired slot with no header
or framing: in every run each written byte is at most 64, and the offset has
advanced by exactly `SLOT_SIZE` per written byte (so bytes and retired slots
correspond one to one); moreover each `observe` extends the stream, in
retirement order, by exactly the popcounts of the slots it retires from the
front of the window. -/
theorem C6_sink_bytes :
    (∀ obs : List (Nat × Nat),
        (∀ b ∈ (runObs initialState obs).out, b ≤ 64) ∧
        (runObs initialState obs).seq_offset =
          1 + SLOT_SIZE * ((runObs initialState obs).out).length) ∧
    (∀ st : TrackerState, ∀ rs sr : Nat, ∃ k,
        (observe st rs sr).out = st.out ++ (st.time_slots.take k).map popCount ∧
        (observe st rs sr).seq_offset = st.seq_offset + SLOT_SIZE * k) := by
  constructor
  · intro obs
    have h := sinkInvariant_runObs obs initialState sinkInvariant_initial
    exact ⟨h.2.1, h.2.2⟩
  · intro st rs sr
    obtain ⟨k, -, heq, -, -⟩ := evictLoop_spec st.time_slots st.out st.seq_offset
    refine ⟨k, ?_, ?_⟩
    · rw [observe_out, heq]
    · rw [observe_seq_offset, heq]

theorem C6_sink_bytes_witness :
    0 ∈ (runObs initialState [(193, 0), (0, 0)]).out ∧
      (0 : Nat) ≤ 64 ∧
      (runObs initialState [(193, 0), (0, 0)]).seq_offset =
        1 + SLOT_SIZE * ((runObs initialState [(193, 0), (0, 0)]).out).length := by
  have hmem : 0 ∈ (runObs initialState [(193, 0), (0, 0)]).out := by
    simp [runObs, observe, evictLoop, growLoop, popCount, initialState,
      SLOT_SIZE, LATE_WINDOW, PACKETS_PER_SECOND]
  exact ⟨hmem, (C6_sink_bytes.1 [(193, 0), (0, 0)]).1 0 hmem,
    (C6_sink_bytes.1 [(193, 0), (0, 0)]).2⟩

/-- C10: for an in-window echo (sequence number at or above the
post-eviction offset), once the growth loop has run the slot index
`idx / SLOT_SIZE` is strictly below the window length — the bitmap access in
the mark step never indexes out of range — and the shift amount
`idx % SLOT_SIZE` is below 64. -/
theorem C10_mark_in_bounds (st : TrackerState) (rs sr : Nat)
    (h : rs ≥ (evictLoop st.time_slots st.out st.seq_offset).2.2) :
    (rs - (evictLoop st.time_slots st.out st.seq_offset).2.2) / SLOT_SIZE <
      (growLoop rs (evictLoop st.time_slots st.out st.seq_offset).2.2
        (evictLoop st.time_slots st.out st.seq_offset).1).length ∧
    (rs - (evictLoop st.time_slots st.out st.seq_offset).2.2) % SLOT_SIZE < 64 := by
  have hcov := growLoop_covers rs (evictLoop st.time_slots st.out st.seq_offset).2.2
    (evictLoop st.time_slots st.out st.seq_offset).1
  constructor
  · rw [Nat.div_lt_iff_lt_mul (by simp [SLOT_SIZE_eq] : 0 < SLOT_SIZE)]
    omega
  · have hm := Nat.mod_lt (rs - (evictLoop st.time_slots st.out st.seq_offset).2.2)
      (by simp [SLOT_SIZE_eq] : 0 < SLOT_SIZE)
    simp only [SLOT_SIZE_eq] at hm ⊢
    exact hm

/-! ### The record operation of the responder -/

/-- The reply of `record` is the stored count plus one (wrapping). -/
theorem record_snd (t : EchoTable) (c now : Nat) :
    (record t c now).2 = (lookupCount t c + 1) % 2 ^ 32 := by
  unfold record lookupCount
  cases hf : t.find? (fun e => e.1 == c) <;> simp [hf]

/-- After `record` for client `c`, the stored count of `c` is the old count
plus one (wrapping). -/
theorem record_lookup_self (t : EchoTable) (c now : Nat) :
    lookupCount (record t c now).1 c = (lookupCount t c + 1) % 2 ^ 32 := by
  cases hf : t.find? (fun e => e.1 == c) with
  | none =>
    have h1 : record t c now = (t ++ [(c, 1, now)], 1) := by
      unfold record
      rw [hf]
    have h2 : lookupCount t c = 0 := by
      unfold lookupCount
      rw [hf]
    rw [h1, h2]
    unfold lookupCount
    rw [List.find?_append, hf]
    simp
  | some e =>
    have hpe : (e.1 == c) = true := by simpa using List.find?_some hf
    have h1 : record t c now =
        (t.map (fun e2 => if e2.1 == c then (c, (e.2.1 + 1) % 2 ^ 32, now) else e2),
          (e.2.1 + 1) % 2 ^ 32) := by
      unfold record
      rw [hf]
    have h2 : lookupCount t c = e.2.1 := by
      unfold lookupCount
      rw [hf]
    rw [h1, h2]
    unfold lookupCount
    rw [List.find?_map]
    have hcomp : ((fun e2 : Nat × Nat × Nat => e2.1 == c) ∘
        (fun e2 : Nat × Nat × Nat =>
          if e2.1 == c then (c, (e.2.1 + 1) % 2 ^ 32, now) else e2)) =
        fun e2 : Nat × Nat × Nat => e2.1 == c := by
      funext e2
      by_cases h : e2.1 = c <;> simp [Function.comp, h]
    rw [hcomp, hf]
    have he : e.1 = c := by simpa using hpe
    simp [he]

/-- `record` for client `c` does not change the stored count of any other
client. -/
theorem record_lookup_other (t : EchoTable) (c now q : Nat) (h : q ≠ c) :
    lookupCount (record t c now).1 q = lookupCount t q := by
  cases hf : t.find? (fun e => e.1 == c) with
  | none =>
    have h1 : record t c now = (t ++ [(c, 1, now)], 1) := by
      unfold record
      rw [hf]
    rw [h1]
    unfold lookupCount
    rw [List.find?_append]
    have : [(c, 1, now)].find? (fun e => e.1 == q) = none := by
      simp [Ne.symm h]
    rw [this]
    cases t.find? (fun e => e.1 == q) <;> rfl
  | some e =>
    have h1 : record t c now =
        (t.map (fun e2 => if e2.1 == c then (c, (e.2.1 + 1) % 2 ^ 32, now) else e2),
          (e.2.1 + 1) % 2 ^ 32) := by
      unfold record
      rw [hf]
    rw [h1]
    unfold lookupCount
    rw [List.find?_map]
    have hcomp : ((fun e2 : Nat × Nat × Nat => e2.1 == q) ∘
        (fun e2 : Nat × Nat × Nat =>
          if e2.1 == c then (c, (e.2.1 + 1) % 2 ^ 32, now) else e2)) =
        fun e2 : Nat × Nat × Nat => e2.1 == q := by
      funext e2
      by_cases h2 : e2.1 = c
      · simp [Function.comp, h2, Ne.symm h]
      · simp [Function.comp, h2]
    rw [hcomp]
    cases hq : t.find? (fun e => e.1 == q) with
    | none => rfl
    | some e2 =>
      have hq2 : e2.1 = q := by simpa using List.find?_some hq
      simp [hq2, h]

/-- Closed form for the replies of a `record` run: the `i`-th reply is the
initial stored count of the `i`-th probe's client id plus the number of probes
from that id among the first `i + 1` probes (wrapping at `2 ^ 32`). -/
theorem serverRun_getElem (ps : List (Nat × Nat)) :
    ∀ (t : EchoTable) (i : Nat) (h : i < ps.length),
      (serverRun t ps)[i]? =
        some ((lookupCount t (ps[i].1) +
          ((ps.take (i + 1)).map Prod.fst).count (ps[i].1)) % 2 ^ 32) := by
  induction ps with
  | nil =>
    intro t i h
    simp at h
  | cons p ps ih =>
    intro t i h
    obtain ⟨c, now⟩ := p
    cases i with
    | zero =>
      simp [serverRun, record_snd]
    | succ i =>
      have h2 : i < ps.length := by simpa using h
      have := ih (record t c now).1 i h2
      simp only [serverRun, List.getElem?_cons_succ, List.getElem_cons_succ,
        List.take_succ_cons, List.map_cons, List.count_cons, this,
        Option.some.injEq]
      by_cases hqc : ps[i].1 = c
      · rw [hqc, record_lookup_self]
        simp
        omega
      · rw [record_lookup_other t c now ps[i].1 hqc]
        have hcq : ¬(c = ps[i].1) := fun hh => hqc hh.symm
        simp [hcq]

/-- Dropping the ack filter condition leaves the tracker untouched. -/
theorem clientStep_tr_of_not_ack (cs : ClientState) (now : Nat) (buf : List Nat)
    (h : ¬(buf.length = SERVER_TO_CLIENT_PACKET_SIZE ∧
      buf.getD 0 0 = ACK_PACKET_CONST)) :
    (clientStep cs now buf).tr = cs.tr := by
  simp only [clientStep]
  rw [if_neg h]

/-- Big-endian length. -/
theorem be32enc_length (n : Nat) : (be32enc n).length = 4 := rfl

/-- Encode–decode roundtrip for 32-bit values. -/
theorem be32of_be32enc (n : Nat) (h : n < 2 ^ 32) : be32of (be32enc n) = n := by
  simp [be32of, be32enc]
  omega

/-- Closed form of the shared sent counter. -/
theorem sentCounter_eq (n : Nat) : sentCounter n = n % 2 ^ 32 := by
  induction n with
  | zero => rfl
  | succ n ih =>
    simp only [sentCounter, ih]
    omega

/-- The `i`-th datagram of the sender loop started at `s` carries sequence
number `s + i`. -/
theorem senderLoop_getElem (cid : Nat) :
    ∀ (n s i : Nat), i < n →
      (senderLoop cid s n)[i]? = some (probeBuf (s + i) cid) := by
  intro n
  induction n with
  | zero =>
    intro s i h
    omega
  | succ n ih =>
    intro s i h
    cases i with
    | zero => simp [senderLoop]
    | succ i =>
      simp only [senderLoop, List.getElem?_cons_succ]
      rw [ih (s + 1) i (by omega)]
      have h2 : s + 1 + i = s + (i + 1) := by omega
      rw [h2]

/-- C7: starting from the empty table, the reply to the `i`-th probe equals
the number of probes with the same client id among the first `i + 1` probes:
the 1st, 2nd, 3rd probe of a given client id get receipt index 1, 2, 3, …
(the entry is created on first sight), replies depend only on the probe's own
client id (independence), and each client's indices are therefore strictly
increasing along its own probes. -/
theorem C7_record_receipt_indices (ps : List (Nat × Nat)) (i : Nat)
    (h : i < ps.length)
    (hcount : ((ps.take (i + 1)).map Prod.fst).count (ps[i].1) < 2 ^ 32) :
    (serverRun [] ps)[i]? =
      some (((ps.take (i + 1)).map Prod.fst).count (ps[i].1)) := by
  rw [serverRun_getElem ps [] i h]
  have hl : lookupCount [] (ps[i].1) = 0 := rfl
  rw [hl, Nat.zero_add, Nat.mod_eq_of_lt hcount]

theorem C7_record_receipt_indices_witness :
    2 < ([(5, 0), (7, 0), (5, 1)] : List (Nat × Nat)).length ∧
    ((([(5, 0), (7, 0), (5, 1)] : List (Nat × Nat)).take 3).map Prod.fst).count
        (([(5, 0), (7, 0), (5, 1)] : List (Nat × Nat))[2].1) < 2 ^ 32 ∧
    (serverRun [] [(5, 0), (7, 0), (5, 1)])[2]? =
      some (((([(5, 0), (7, 0), (5, 1)] : List (Nat × Nat)).take 3).map
        Prod.fst).count (([(5, 0), (7, 0), (5, 1)] : List (Nat × Nat))[2].1)) :=
  ⟨by decide, by decide,
    C7_record_receipt_indices [(5, 0), (7, 0), (5, 1)] 2 (by decide) (by decide)⟩

/-- C8, counterexample to the claim as stated: the responder filters by
length only — it processes ANY 9-byte datagram, including one whose kind tag
is `Ack (3)` rather than `SeqNum (2)`: the table gains an entry and a reply
is produced. -/
theorem C8_kind_filter_counterexample :
    (3 : Nat) ≠ SEQ_NUM_PACKET_CONST ∧
    serverStep [] 0 0 [3, 0, 0, 0, 1, 0, 0, 0, 9] =
      ([(9, 1, 0)], 0, some [3, 0, 0, 0, 1, 0, 0, 0, 1]) := by
  decide

/-- C8 (amended): the responder silently discards datagrams of the wrong
length (no state change, no reply) but processes any 9-byte datagram
regardless of its kind tag (always replying); the prober feeds only 9-byte
datagrams with kind `Ack (3)` into the tracker — any other datagram leaves
the tracker state unchanged (though the prober's inter-arrival lag histogram
and `last_recv` are updated for every received datagram). -/
theorem C8_malformed_discard :
    (∀ (t : EchoTable) (lc now : Nat) (buf : List Nat),
        buf.length ≠ CLIENT_TO_SERVER_PACKET_SIZE →
        serverStep t lc now buf = (t, lc, none)) ∧
    (∀ (t : EchoTable) (lc now : Nat) (buf : List Nat),
        buf.length = CLIENT_TO_SERVER_PACKET_SIZE →
        (serverStep t lc now buf).2.2.isSome = true) ∧
    (∀ (cs : ClientState) (now : Nat) (buf : List Nat),
        ¬(buf.length = SERVER_TO_CLIENT_PACKET_SIZE ∧
          buf.getD 0 0 = ACK_PACKET_CONST) →
        (clientStep cs now buf).tr = cs.tr) := by
  refine ⟨?_, ?_, clientStep_tr_of_not_ack⟩
  · intro t lc now buf h
    unfold serverStep
    rw [if_neg h]
  · intro t lc now buf h
    simp only [serverStep]
    rw [if_pos h]
    rfl

theorem C8_malformed_discard_witness :
    ([2, 0] : List Nat).length ≠ CLIENT_TO_SERVER_PACKET_SIZE ∧
    serverStep [] 0 0 [2, 0] = ([], 0, none) ∧
    ([2, 0, 0, 0, 1, 0, 0, 0, 9] : List Nat).length = CLIENT_TO_SERVER_PACKET_SIZE ∧
    (serverStep [] 0 0 [2, 0, 0, 0, 1, 0, 0, 0, 9]).2.2.isSome = true ∧
    ¬(([1, 2, 3] : List Nat).length = SERVER_TO_CLIENT_PACKET_SIZE ∧
      ([1, 2, 3] : List Nat).getD 0 0 = ACK_PACKET_CONST) ∧
    (clientStep ⟨initialState, none, List.replicate 10 0⟩ 0 [1, 2, 3]).tr =
      initialState :=
  ⟨by decide, C8_malformed_discard.1 [] 0 0 [2, 0] (by decide), by decide,
    C8_malformed_discard.2.1 [] 0 0 [2, 0, 0, 0, 1, 0, 0, 0, 9] (by decide),
    by decide,
    C8_malformed_discard.2.2 ⟨initialState, none, List.replicate 10 0⟩ 0 [1, 2, 3]
      (by decide)⟩

/-- C9: the sender loop emits sequence numbers 1, 2, 3, … (the `i`-th
emission carries sequence number `i + 1` — monotonically increasing, starting
at 1, never reused within a `u32`-bounded run) and the shared sent counter
equals the number of emissions. -/
theorem C9_sender_monotonic (cid n i : Nat) (hn : n < 2 ^ 32) (hi : i < n) :
    sentCounter n = n ∧
    (senderRun cid n)[i]? = some (probeBuf (i + 1) cid) ∧
    be32of (((probeBuf (i + 1) cid).drop 1).take 4) = i + 1 := by
  refine ⟨?_, ?_, ?_⟩
  · rw [sentCounter_eq]
    exact Nat.mod_eq_of_lt hn
  · unfold senderRun
    rw [senderLoop_getElem cid n 1 i hi]
    have h2 : 1 + i = i + 1 := by omega
    rw [h2]
  · simp [probeBuf, be32enc, be32of]
    omega

theorem C9_sender_monotonic_witness :
    3 < 2 ^ 32 ∧ 1 < 3 ∧
    (sentCounter 3 = 3 ∧
      (senderRun 7 3)[1]? = some (probeBuf 2 7) ∧
      be32of (((probeBuf 2 7).drop 1).take 4) = 2) :=
  ⟨by decide, by decide, C9_sender_monotonic 7 3 1 (by decide) (by decide)⟩

theorem C10_mark_in_bounds_witness :
    1 ≥ (evictLoop initialState.time_slots initialState.out
      initialState.seq_offset).2.2 ∧
    ((1 - (evictLoop initialState.time_slots initialState.out
        initialState.seq_offset).2.2) / SLOT_SIZE <
      (growLoop 1 (evictLoop initialState.time_slots initialState.out
          initialState.seq_offset).2.2
        (evictLoop initialState.time_slots initialState.out
          initialState.seq_offset).1).length ∧
    (1 - (evictLoop initialState.time_slots initialState.out
        initialState.seq_offset).2.2) % SLOT_SIZE < 64) :=
  ⟨by decide, C10_mark_in_bounds initialState 1 0 (by decide)⟩

theorem C4_eviction_steps_witness :
    ∃ k, k ≤ ([0, 0, 0, 0] : List Nat).length ∧
      evictLoop [0, 0, 0, 0] [] 1 =
        (([0, 0, 0, 0] : List Nat).drop k,
          [] ++ (([0, 0, 0, 0] : List Nat).take k).map popCount,
          1 + SLOT_SIZE * k) ∧
      ((evictLoop [0, 0, 0, 0] [] 1).2.1).sum =
        ([] : List Nat).sum + ((([0, 0, 0, 0] : List Nat).take k).map popCount).sum ∧
      (([0, 0, 0, 0] : List Nat).length - k) * SLOT_SIZE ≤ LATE_WINDOW ∧
      (∀ j, j < k → (([0, 0, 0, 0] : List Nat).length - j) * SLOT_SIZE > LATE_WINDOW) :=
  C4_eviction_steps [0, 0, 0, 0] [] 1
